import Mathlib

/-!
# Verification of the metronome beat scheduler (src/components/Metronome.tsx)

A shallow embedding of the core of the `Metronome` React component:
the beat scheduler (`startMetronome`, the interval tick body, the
time-signature reconfiguration handler, the tempo-slider commit handler,
the tap-tempo reschedule), the accent-pattern updates, and the tap-tempo
estimator (`handleTapTempo`).

Modelling conventions:
* JavaScript numbers are modelled as `ℚ` (timestamps, tempo, volume,
  intervals) or `ℕ` (beat indices, timer ids).  `Math.round` is `round`
  on `ℚ` (both are `⌊x + 1/2⌋`).
* The host timer system is modelled explicitly: `setInterval` allocates a
  fresh id, records it in a list `live` of currently armed repeating
  timers, and stores it in `timer` (the `timerRef.current` cell);
  `clearInterval h` removes `h` from `live`.
* Each tick's observable side effects are recorded as an `Event` trace:
  `Event.tone a v` is an invocation of the tone generator (`playClick`)
  with accent flag `a` and current volume `v`; `Event.visual b` is the
  visual callback (`setCurrentBeat b`).
-/

/-- Sound parameters of one timbre, from the `SOUNDS` constant. -/
structure SoundParams where
  frequency : ℕ
  gainMultiplier : ℚ
  deriving DecidableEq

/-- `SOUNDS.accent`: 1200 Hz, gain multiplier 1.0. -/
def SOUNDS_accent : SoundParams := ⟨1200, 1⟩

/-- `SOUNDS.otherBeats`: 800 Hz, gain multiplier 0.7. -/
def SOUNDS_otherBeats : SoundParams := ⟨800, 7/10⟩

/-- The denominator of a time signature: the string union `"4" | "8" | "none"`. -/
inductive SigValue
  | four
  | eight
  | noneV
  deriving DecidableEq

/-- The `TimeSignature` interface: `{ beats: number; value: "4" | "8" | "none" }`. -/
structure TimeSignature where
  beats : ℕ
  value : SigValue
  deriving DecidableEq

/-- An observable side effect of a tick. -/
inductive Event
  | tone (isAccent : Bool) (volume : ℚ)
  | visual (beat : ℕ)
  deriving DecidableEq

/-- The component state relevant to the beat scheduler: React state,
the `*Ref` mutable cells, and the explicit host-timer bookkeeping
(`live`, `nextId`, and the interval data captured by the armed timer's
closure: `timerModulus` is the beat count the interval callback closes
over, `timerIntervalMs` its period). -/
structure MState where
  isPlaying : Bool
  tempo : ℚ
  volume : ℚ
  timeSignature : TimeSignature
  accentBeats : List Bool
  currentBeat : ℕ
  nextBeat : ℕ
  timer : Option ℕ
  live : List ℕ
  nextId : ℕ
  timerModulus : ℕ
  timerIntervalMs : ℚ

/-- `playClick(beatNumber)`: the tone generator is invoked with the accent
flag `accentBeatsRef.current[beatNumber]` (an out-of-range read is falsy)
and the current volume `volumeRef.current`. -/
def playClick (s : MState) (beatNumber : ℕ) : Event :=
  Event.tone (s.accentBeats.getD beatNumber false) s.volume

/-- `clearInterval(h)`: the handle `h` is no longer a live repeating timer. -/
def clearIntervalM (s : MState) (h : ℕ) : MState :=
  { s with live := s.live.erase h }

/-- The effect of `clearInterval` on the live-timer list, for a possibly
absent handle. -/
def eraseTimer : Option ℕ → List ℕ → List ℕ
  | some h, l => l.erase h
  | none, l => l

/-- `if (timerRef.current) clearInterval(timerRef.current)`: only the set
of live timers changes (the `timerRef` cell itself is left stale). -/
def clearCurrentTimer (s : MState) : MState :=
  { s with live := eraseTimer s.timer s.live }

/-- `window.setInterval(cb, intervalMs)` where the callback closes over the
beat modulus `m`: allocates a fresh handle, arms it, stores it in
`timerRef.current`. -/
def setIntervalM (s : MState) (m : ℕ) (intervalMs : ℚ) : MState :=
  { s with timer := some s.nextId
           live := s.nextId :: s.live
           nextId := s.nextId + 1
           timerModulus := m
           timerIntervalMs := intervalMs }

/-- The body of the repeating interval callback armed by `startMetronome`
(and by the time-signature handler): `playClick(nextBeatRef.current)`,
`setCurrentBeat(nextBeatRef.current)`, then
`nextBeatRef.current = (nextBeatRef.current + 1) % beats` where `beats` is
the modulus captured by the closure. -/
def tickBody (s : MState) : List Event × MState :=
  ([playClick s s.nextBeat, Event.visual s.nextBeat],
   { s with currentBeat := s.nextBeat
            nextBeat := (s.nextBeat + 1) % s.timerModulus })

/-- `startMetronome()` (lines 466-483): clear any current timer, compute
`intervalMs = Math.max((60 / tempoRef.current) * 1000, 10)`, play the first
beat immediately (click, visual callback, cursor advance modulo
`timeSignature.beats`), then arm the repeating interval. -/
def startMetronome (s : MState) : List Event × MState :=
  let s1 := clearCurrentTimer s
  let intervalMs := max (60 / s1.tempo * 1000) 10
  let evs := [playClick s1 s1.nextBeat, Event.visual s1.nextBeat]
  let s2 := { s1 with currentBeat := s1.nextBeat
                      nextBeat := (s1.nextBeat + 1) % s1.timeSignature.beats }
  (evs, setIntervalM s2 s2.timeSignature.beats intervalMs)

/-- The tempo slider `onValueCommit` handler together with the preceding
`onValueChange`/`tempoRef` sync: the new tempo is stored, and if playing,
`startMetronome()` is called. -/
def tempoCommit (s : MState) (newTempo : ℚ) : List Event × MState :=
  let s1 := { s with tempo := newTempo }
  if s1.isPlaying then startMetronome s1 else ([], s1)

/-- The deferred tap-tempo reschedule: `handleTapTempo` arms a 250ms
timeout (only when playing) whose callback is `startMetronome()`. -/
def tapReschedule (s : MState) : List Event × MState :=
  startMetronome s

/-- The accent-pattern branch of the time-signature `Select` handler
(lines 871-878): `"none"` yields `[false]`; otherwise a fresh all-false
array of length `beats` with index 0 set to `true`. -/
def selectAccents (sig : TimeSignature) : List Bool :=
  if sig.value = SigValue.noneV then [false]
  else (List.replicate sig.beats false).set 0 true

/-- The accent-beats `useEffect` (lines 328-338), run when
`timeSignature.beats` changes: build an all-false array of length `beats`,
set index 0 to `true`, then copy `prev[i]` over it for
`i < min(prev.length, beats)` (which overwrites index 0 again whenever
`prev` is non-empty). -/
def effectAccents (prev : List Bool) (beats : ℕ) : List Bool :=
  let withFirst := (List.replicate beats false).set 0 true
  (List.range (min prev.length beats)).foldl
    (fun acc i => acc.set i (prev.getD i false)) withFirst

set_option linter.unusedVariables false in
/-- The net accent pattern after a time-signature change: the `Select`
handler stores `selectAccents`, then the `useEffect` keyed on
`timeSignature.beats` rewrites it with `effectAccents`.  The previous
pattern `old` is deliberately a parameter although the composite never
reads it: the handler overwrites the pattern before the effect can copy
from it. -/
def changeAccents (old : List Bool) (sig : TimeSignature) : List Bool :=
  effectAccents (selectAccents sig) sig.beats

/-- The time-signature `Select` `onValueChange` handler (lines 850-900):
store the new signature, set the fresh accent pattern, and if playing,
clear the current timer, compute `intervalMs = (60 / tempoRef.current) * 1000`
(note: no 10ms floor on this path), reset `nextBeatRef` and `currentBeat`
to 0, and arm a new interval whose callback advances modulo
`newTimeSignature.beats`. -/
def timeSigChange (s : MState) (newSig : TimeSignature) : MState :=
  let s1 := { s with timeSignature := newSig
                     accentBeats := selectAccents newSig }
  if s1.isPlaying then
    let s2 := clearCurrentTimer s1
    let intervalMs := 60 / s2.tempo * 1000
    let s3 := { s2 with nextBeat := 0, currentBeat := 0 }
    setIntervalM s3 newSig.beats intervalMs
  else s1

/-- The accent-beats `useEffect` as a state transition (it fires after the
`Select` handler because `timeSignature.beats` changed). -/
def accentEffect (s : MState) : MState :=
  { s with accentBeats := effectAccents s.accentBeats s.timeSignature.beats }

/-- A time-signature change as observed after React has also run the
accent-beats effect. -/
def timeSigChangeFull (s : MState) (newSig : TimeSignature) : MState :=
  accentEffect (timeSigChange s newSig)

/-- `startStop()`: when playing, clear the timer, stop, reset both beat
cells to 0; when stopped, set playing, reset beat cells, and run
`startMetronome()` (possibly after the one-time 500ms warm-up timeout,
which does not change the resulting state). -/
def startStop (s : MState) : List Event × MState :=
  if s.isPlaying then
    let s1 := clearCurrentTimer s
    ([], { s1 with isPlaying := false, currentBeat := 0, nextBeat := 0 })
  else
    startMetronome { s with isPlaying := true, currentBeat := 0, nextBeat := 0 }

/-- Iterate the interval tick `n` times, accumulating the event trace. -/
def ticksN : ℕ → MState → List Event × MState
  | 0, s => ([], s)
  | n + 1, s =>
    let r := tickBody s
    let r2 := ticksN n r.2
    (r.1 ++ r2.1, r2.2)

/-- The subsequence of visual-callback beat indices in an event trace. -/
def visualBeats : List Event → List ℕ
  | [] => []
  | Event.visual b :: es => b :: visualBeats es
  | Event.tone _ _ :: es => visualBeats es

/-! ## Tap-tempo estimator (`handleTapTempo`, lines 529-565)

The estimator proper, i.e. the logic guarded by the win-lockout check:
the rolling window of tap timestamps and the BPM computation.  JavaScript
divides by zero to `Infinity`, which the subsequent
`Math.min(Math.max(·, 40), 800)` clamps to `800`; the `avg = 0` branch of
`computeBpm` translates that. -/

/-- `Math.min(Math.max(Math.round(60000 / avg), 40), 800)`. -/
def computeBpm (avg : ℚ) : ℤ :=
  if avg = 0 then 800
  else min (max (round (60000 / avg)) 40) 800

/-- The consecutive inter-tap intervals: `t[i] - t[i-1]` for `1 ≤ i < len`. -/
def tapIntervals (w : List ℚ) : List ℚ :=
  (List.range (w.length - 1)).map (fun i => w.getD (i + 1) 0 - w.getD i 0)

/-- The average inter-tap interval of a window. -/
def avgInterval (w : List ℚ) : ℚ :=
  (tapIntervals w).sum / (tapIntervals w).length

/-- The tap window after one registration: clear the window if the last
tap is more than 1000ms old (`tapTimes.length = 0`), push the new
timestamp, and keep only the last 3 entries (`shift`). -/
def windowAfterTap (w : List ℚ) (now : ℚ) : List ℚ :=
  let w1 := if 0 < w.length ∧ 1000 < now - w.getLastD 0 then [] else w
  let w2 := w1 ++ [now]
  if 3 < w2.length then w2.tail else w2

/-- One tap registration (lines 529-565, after the lockout guard): update
the window, and if at least 2 taps remain, return the clamped BPM
estimate (the value passed to `setTempo`). -/
def registerTap (w : List ℚ) (now : ℚ) : List ℚ × Option ℤ :=
  let w3 := windowAfterTap w now
  if 2 ≤ w3.length then (w3, some (computeBpm (avgInterval w3)))
  else (w3, none)

/-! ## Sample states for concrete checks -/

/-- A typical running state: 4/4 at 120 BPM, default accents, armed timer
interval 500ms, fresh timer bookkeeping. -/
def sampleState : MState :=
  { isPlaying := true
    tempo := 120
    volume := 1/2
    timeSignature := ⟨4, SigValue.four⟩
    accentBeats := [true, false, false, false]
    currentBeat := 0
    nextBeat := 0
    timer := none
    live := []
    nextId := 0
    timerModulus := 4
    timerIntervalMs := 500 }

/-- A running state whose tempo is high enough (10000 BPM) that the 10ms
interval floor is what the claimed formula would return. -/
def turboState : MState :=
  { sampleState with tempo := 10000 }

/-! ## Helper lemmas -/

theorem visualBeats_append (a b : List Event) :
    visualBeats (a ++ b) = visualBeats a ++ visualBeats b := by
  induction a with
  | nil => rfl
  | cons e es ih => cases e <;> simp [visualBeats, ih]

theorem computeBpm_bounds (avg : ℚ) : 40 ≤ computeBpm avg ∧ computeBpm avg ≤ 800 := by
  unfold computeBpm
  split
  · exact ⟨by norm_num, by norm_num⟩
  · exact ⟨le_min (le_max_right _ _) (by norm_num), min_le_right _ _⟩

theorem sixty_div_mul (t : ℚ) : 60 / t * 1000 = 60000 / t := by
  rw [div_mul_eq_mul_div]; norm_num

/-! ## C3: tick side-effect order -/

/-- C3: on every tick — the interval callback and the immediate beat fired
by `startMetronome` alike — the side effects are, in order: the tone
generator is invoked with accent flag `accentPattern[cursor]` and the
current volume, then the visual callback is invoked with the same cursor
value, and only then does the cursor advance to
`(cursor + 1) mod beatCount` (the armed callback uses the beat count its
closure captured, which is `timeSignature.beats` at arming time). -/
theorem c3_tick_order (s : MState) :
    tickBody s =
      ([Event.tone (s.accentBeats.getD s.nextBeat false) s.volume,
        Event.visual s.nextBeat],
       { s with currentBeat := s.nextBeat
                nextBeat := (s.nextBeat + 1) % s.timerModulus }) ∧
    (startMetronome s).1 =
      [Event.tone (s.accentBeats.getD s.nextBeat false) s.volume,
       Event.visual s.nextBeat] ∧
    (startMetronome s).2.currentBeat = s.nextBeat ∧
    (startMetronome s).2.nextBeat = (s.nextBeat + 1) % s.timeSignature.beats ∧
    (s.timerModulus = s.timeSignature.beats →
      (tickBody s).2.nextBeat = (s.nextBeat + 1) % s.timeSignature.beats) := by
  refine ⟨rfl, rfl, rfl, rfl, fun h => ?_⟩
  simp [tickBody, h]

/-- Witness for C3 at the sample 4/4 state. -/
theorem c3_tick_order_witness :
    sampleState.timerModulus = sampleState.timeSignature.beats ∧
    (tickBody sampleState).2.nextBeat =
      (sampleState.nextBeat + 1) % sampleState.timeSignature.beats :=
  ⟨by decide, (c3_tick_order sampleState).2.2.2.2 (by decide)⟩

/-! ## C7: 3 taps 500ms apart estimate 120 BPM -/

/-- C7: registering the tap sequence `t, t + 500, t + 1000` (three taps
500ms apart) starting from an empty window makes the estimator return
`some 120` on the third tap. -/
theorem c7_tap_sequence (t : ℚ) :
    (registerTap (registerTap (registerTap [] t).1 (t + 500)).1 (t + 1000)).2 =
      some 120 := by
  have h1 : registerTap [] t = ([t], none) := by
    simp [registerTap, windowAfterTap]
  have h2 : (registerTap [t] (t + 500)).1 = [t, t + 500] := by
    norm_num [registerTap, windowAfterTap]
  have h3 : windowAfterTap [t, t + 500] (t + 1000) = [t, t + 500, t + 1000] := by
    norm_num [windowAfterTap]
  have havg : avgInterval [t, t + 500, t + 1000] = 500 := by
    simp [avgInterval, tapIntervals, List.range_succ]
    ring_nf
  rw [h1, h2]
  simp [registerTap, h3, havg, computeBpm]
  norm_num [round_eq]

/-! ## C8: a gap over 1000ms clears the window -/

/-- C8: from any non-empty tap window, a tap whose timestamp exceeds the
most recent tap by more than 1000ms clears the window before appending,
leaving only the new tap, and returns no estimate. -/
theorem c8_gap_clears_window (w : List ℚ) (now : ℚ)
    (hne : w ≠ []) (hgap : 1000 < now - w.getLastD 0) :
    registerTap w now = ([now], none) := by
  have hlen : 0 < w.length := List.length_pos.mpr hne
  have hgap2 : 1000 < now - w.getLast?.getD 0 := by
    rw [← List.getLastD_eq_getLast?]; exact hgap
  have hw : windowAfterTap w now = [now] := by
    simp [windowAfterTap, hlen, hgap2]
  simp [registerTap, hw]

/-- Witness for C8: window `[0]`, new tap at 1500ms. -/
theorem c8_gap_clears_window_witness :
    ([(0 : ℚ)] ≠ [] ∧ 1000 < (1500 : ℚ) - [(0 : ℚ)].getLastD 0) ∧
    registerTap [(0 : ℚ)] 1500 = ([1500], none) :=
  ⟨⟨by decide, by norm_num⟩, c8_gap_clears_window [0] 1500 (by decide) (by norm_num)⟩

/-! ## C9: estimate exactly when the window holds at least 2 taps -/

/-- C9: `registerTap` returns no estimate exactly when the post-append
window holds fewer than 2 taps; whenever it returns an estimate, the
estimate is `round(60000 / averageIntervalMs)` clamped to `[40, 800]`
(`computeBpm`, whose zero-interval branch renders JavaScript's division
by zero to `Infinity`, which the clamp sends to 800).  Determinism is
immediate: `registerTap` is a pure function of the window and the
injected timestamp. -/
theorem c9_estimate_contract (w : List ℚ) (now : ℚ) :
    ((registerTap w now).2 = none ↔ (registerTap w now).1.length < 2) ∧
    (∀ b : ℤ, (registerTap w now).2 = some b →
      b = computeBpm (avgInterval (registerTap w now).1) ∧ 40 ≤ b ∧ b ≤ 800) := by
  by_cases h : 2 ≤ (windowAfterTap w now).length
  · refine ⟨by simp [registerTap, h, Nat.not_lt.mpr h], fun b hb => ?_⟩
    have hb2 : b = computeBpm (avgInterval (windowAfterTap w now)) := by
      simpa [registerTap, h] using hb.symm
    refine ⟨by simpa [registerTap, h] using hb2, ?_, ?_⟩
    · exact hb2 ▸ (computeBpm_bounds _).1
    · exact hb2 ▸ (computeBpm_bounds _).2
  · refine ⟨by simp [registerTap, h, Nat.lt_of_not_le h], fun b hb => ?_⟩
    simp [registerTap, h] at hb

/-- Witness for C9: registering a tap at 500ms onto the window `[0]`
yields the estimate 120, which the contract brackets into `[40, 800]`. -/
theorem c9_estimate_contract_witness :
    (registerTap [(0 : ℚ)] 500).2 = some 120 ∧
    (120 : ℤ) = computeBpm (avgInterval (registerTap [(0 : ℚ)] 500).1) ∧
    (40 : ℤ) ≤ 120 ∧ (120 : ℤ) ≤ 800 := by
  have hsome : (registerTap [(0 : ℚ)] 500).2 = some 120 := by
    have hw : windowAfterTap [(0 : ℚ)] 500 = [0, 500] := by
      norm_num [windowAfterTap]
    have havg : avgInterval [(0 : ℚ), 500] = 500 := by
      norm_num [avgInterval, tapIntervals, List.range_succ]
    simp [registerTap, hw, havg, computeBpm]
    norm_num [round_eq]
  exact ⟨hsome, (c9_estimate_contract [0] 500).2 120 hsome⟩

/-! ## C1: the 10ms interval floor -/

/-- C1 counterexample: at tempo 10000 the claimed formula gives
`max(60000/10000, 10) = 10`, but the time-signature reconfiguration path
arms its interval at the unfloored `(60/10000)*1000 = 6` ms. -/
theorem c1_counterexample :
    (timeSigChange turboState ⟨3, SigValue.four⟩).timerIntervalMs ≠
      max (60000 / turboState.tempo) 10 := by
  norm_num [timeSigChange, setIntervalM, clearCurrentTimer, turboState,
    sampleState, selectAccents]

/-- C1 (amended): `start()`, the tempo-slider commit and the tap-tempo
reschedule (all of which run `startMetronome`) arm the timer at
`max(60000/tempo, 10)` ms, but the time-signature change path arms it at
the unfloored `60000/tempo` ms; the two agree exactly while
`0 < tempo ≤ 6000` (which covers every tempo the UI can store, since
tempo is clamped to at most 800). -/
theorem c1_interval_floor (s : MState) (t : ℚ) (sig : TimeSignature)
    (hp : s.isPlaying = true) :
    (startMetronome s).2.timerIntervalMs = max (60000 / s.tempo) 10 ∧
    (tempoCommit s t).2.timerIntervalMs = max (60000 / t) 10 ∧
    (tapReschedule s).2.timerIntervalMs = max (60000 / s.tempo) 10 ∧
    (timeSigChange s sig).timerIntervalMs = 60000 / s.tempo ∧
    (0 < s.tempo → s.tempo ≤ 6000 → 60000 / s.tempo = max (60000 / s.tempo) 10) := by
  have hsm : ∀ s1 : MState, (startMetronome s1).2.timerIntervalMs =
      max (60000 / s1.tempo) 10 := by
    intro s1
    simp [startMetronome, setIntervalM, clearCurrentTimer, sixty_div_mul]
  refine ⟨hsm s, ?_, hsm s, ?_, ?_⟩
  · simp only [tempoCommit, hp, if_true]
    simpa using hsm { s with tempo := t }
  · simp [timeSigChange, hp, setIntervalM, clearCurrentTimer, sixty_div_mul]
  · intro h0 h6
    have h10 : (10 : ℚ) ≤ 60000 / s.tempo := by
      rw [le_div_iff₀ h0]; linarith
    exact (max_eq_left h10).symm

/-- Witness for C1 (amended) at the sample running state, new tempo 240,
new signature 3/4; at this 120 BPM state the two interval formulas agree. -/
theorem c1_interval_floor_witness :
    sampleState.isPlaying = true ∧
    (startMetronome sampleState).2.timerIntervalMs =
      max (60000 / sampleState.tempo) 10 ∧
    (tempoCommit sampleState 240).2.timerIntervalMs = max (60000 / 240) 10 ∧
    (tapReschedule sampleState).2.timerIntervalMs =
      max (60000 / sampleState.tempo) 10 ∧
    (timeSigChange sampleState ⟨3, SigValue.four⟩).timerIntervalMs =
      60000 / sampleState.tempo ∧
    60000 / sampleState.tempo = max (60000 / sampleState.tempo) 10 := by
  have h := c1_interval_floor sampleState 240 ⟨3, SigValue.four⟩ rfl
  exact ⟨rfl, h.1, h.2.1, h.2.2.1, h.2.2.2.1,
    h.2.2.2.2 (by decide) (by decide)⟩

/-! ## C6 and C10: accent pattern on time-signature change -/

theorem set_getD_self (l : List Bool) (i : ℕ) : l.set i (l.getD i false) = l := by
  induction l generalizing i with
  | nil => simp
  | cons a as ih =>
    cases i with
    | zero => rfl
    | succ j => rw [List.getD_cons_succ, List.set_cons_succ, ih]

theorem copy_foldl_self (L : List ℕ) (prev : List Bool) :
    L.foldl (fun acc i => acc.set i (prev.getD i false)) prev = prev := by
  induction L with
  | nil => rfl
  | cons i is ih => rw [List.foldl_cons, set_getD_self, ih]

theorem fresh_pattern (b : ℕ) (hb : 1 ≤ b) :
    (List.replicate b false).set 0 true = true :: List.replicate (b - 1) false := by
  obtain ⟨k, rfl⟩ : ∃ k, b = k + 1 := ⟨b - 1, (Nat.succ_pred_eq_of_pos hb).symm⟩
  simp [List.replicate_succ]

/-- C6 counterexample: changing from 4/4 with accent pattern
`[true, true, false, false]` to 3/4 yields `[true, false, false]`: the
shared index 1 does not keep its previous value `true`, refuting
"entries at indices shared with the old pattern keep their previous
values". -/
theorem c6_counterexample :
    changeAccents [true, true, false, false] ⟨3, SigValue.four⟩ =
      [true, false, false] ∧
    (changeAccents [true, true, false, false] ⟨3, SigValue.four⟩).getD 1 false ≠
      [true, true, false, false].getD 1 false := by
  constructor
  · rfl
  · decide

/-- C6 (amended): on every time-signature change the resulting accent
pattern (after the `Select` handler and the accent-beats effect have both
run) is the fresh default: for a non-"none" signature with `b ≥ 1` beats
it is `[true, false, …, false]` of length `b` — length equals the new
beat count, index 0 is true, and every other entry is false, the previous
pattern being discarded rather than preserved; changing to "none" yields
`[false]`. -/
theorem c6_accents_amended (old : List Bool) (b : ℕ) (v : SigValue) :
    (v ≠ SigValue.noneV → 1 ≤ b →
      changeAccents old ⟨b, v⟩ = true :: List.replicate (b - 1) false) ∧
    changeAccents old ⟨1, SigValue.noneV⟩ = [false] := by
  constructor
  · intro hv hb
    have hsel : selectAccents ⟨b, v⟩ = true :: List.replicate (b - 1) false := by
      simp [selectAccents, hv, fresh_pattern b hb]
    have hlen : (true :: List.replicate (b - 1) false).length = b := by
      simp; omega
    simp only [changeAccents, hsel, effectAccents, hlen, fresh_pattern b hb,
      min_self]
    exact copy_foldl_self _ _
  · rfl

/-- Witness for C6 (amended): change to 3/4 from the 4/4 pattern
`[true, true, false, false]`. -/
theorem c6_accents_amended_witness :
    (SigValue.four ≠ SigValue.noneV ∧ 1 ≤ 3) ∧
    changeAccents [true, true, false, false] ⟨3, SigValue.four⟩ =
      true :: List.replicate (3 - 1) false :=
  ⟨⟨by decide, by decide⟩,
   (c6_accents_amended [true, true, false, false] 3 SigValue.four).1
     (by decide) (by decide)⟩

/-- C10: selecting the "None" signature (beat count 1) sets the accent
pattern to `[false]` — also after the accent-beats effect reruns — and
the lone beat is played with the non-accent timbre: the tone generator is
invoked with accent flag `false`. -/
theorem c10_none_unaccented (s : MState) (old : List Bool) :
    changeAccents old ⟨1, SigValue.noneV⟩ = [false] ∧
    (timeSigChangeFull s ⟨1, SigValue.noneV⟩).accentBeats = [false] ∧
    playClick (timeSigChangeFull s ⟨1, SigValue.noneV⟩) 0 =
      Event.tone false s.volume := by
  have heff : effectAccents [false] 1 = [false] := by decide
  have h1 : (timeSigChange s ⟨1, SigValue.noneV⟩).accentBeats = [false] := by
    by_cases hp : s.isPlaying <;>
      simp [timeSigChange, setIntervalM, clearCurrentTimer, hp, selectAccents]
  have h2 : (timeSigChange s ⟨1, SigValue.noneV⟩).timeSignature =
      ⟨1, SigValue.noneV⟩ := by
    by_cases hp : s.isPlaying <;>
      simp [timeSigChange, setIntervalM, clearCurrentTimer, hp]
  have h3 : (timeSigChangeFull s ⟨1, SigValue.noneV⟩).accentBeats = [false] := by
    simp [timeSigChangeFull, accentEffect, h1, h2, heff]
  have h4 : (timeSigChangeFull s ⟨1, SigValue.noneV⟩).volume = s.volume := by
    by_cases hp : s.isPlaying <;>
      simp [timeSigChangeFull, accentEffect, timeSigChange, setIntervalM,
        clearCurrentTimer, hp]
  refine ⟨rfl, h3, ?_⟩
  rw [playClick, h3, h4]
  rfl

/-! ## C2: at most one live repeating timer -/

/-- The timer-ownership invariant: either no repeating timer is live, or
exactly one is live and `timerRef.current` holds its handle.  (After
`stop()` the ref may hold a stale, already-cleared handle; the invariant
permits that, since clearing a cleared handle is a no-op.) -/
def TimerInv (s : MState) : Prop :=
  s.live = [] ∨ ∃ h, s.live = [h] ∧ s.timer = some h

theorem timerInv_length (s : MState) (hinv : TimerInv s) : s.live.length ≤ 1 := by
  rcases hinv with h | ⟨i, hl, _⟩
  · simp [h]
  · simp [hl]

/-- Under the invariant, `if (timerRef.current) clearInterval(...)` leaves
no live timer at all. -/
theorem clearCurrentTimer_live (s : MState) (hinv : TimerInv s) :
    (clearCurrentTimer s).live = [] := by
  rcases hinv with h | ⟨i, hl, ht⟩
  · cases htm : s.timer <;> simp [clearCurrentTimer, eraseTimer, h, htm]
  · simp [clearCurrentTimer, ht, hl, eraseTimer]

/-- `startMetronome` leaves exactly the freshly armed timer live, with its
handle in `timerRef.current`. -/
theorem startMetronome_timer_state (s : MState) (hinv : TimerInv s) :
    (startMetronome s).2.live = [s.nextId] ∧
    (startMetronome s).2.timer = some s.nextId := by
  have h := clearCurrentTimer_live s hinv
  simp only [clearCurrentTimer] at h
  constructor <;> simp [startMetronome, setIntervalM, clearCurrentTimer, h]

/-- C2: every operation that arms a repeating timer (`startMetronome`
itself, the tempo-slider commit, the time-signature change, the tap-tempo
reschedule) cancels the previously live timer before arming the new one,
and `startStop` cancels on stop — so from any state with at most one live
timer, every reachable state again has at most one live timer. -/
theorem c2_single_timer (s : MState) (t : ℚ) (sig : TimeSignature)
    (hinv : TimerInv s) :
    (TimerInv (startMetronome s).2 ∧ (startMetronome s).2.live.length ≤ 1) ∧
    (TimerInv (tempoCommit s t).2 ∧ (tempoCommit s t).2.live.length ≤ 1) ∧
    (TimerInv (timeSigChange s sig) ∧ (timeSigChange s sig).live.length ≤ 1) ∧
    (TimerInv (tapReschedule s).2 ∧ (tapReschedule s).2.live.length ≤ 1) ∧
    (TimerInv (startStop s).2 ∧ (startStop s).2.live.length ≤ 1) ∧
    (TimerInv (tickBody s).2 ∧ (tickBody s).2.live.length ≤ 1) := by
  have key : ∀ s1 : MState, TimerInv s1 →
      TimerInv (startMetronome s1).2 ∧ (startMetronome s1).2.live.length ≤ 1 := by
    intro s1 h1
    obtain ⟨hl, ht⟩ := startMetronome_timer_state s1 h1
    exact ⟨Or.inr ⟨s1.nextId, hl, ht⟩, by rw [hl]; simp⟩
  have hcc := clearCurrentTimer_live s hinv
  simp only [clearCurrentTimer] at hcc
  refine ⟨key s hinv, ?_, ?_, key s hinv, ?_, ?_⟩
  · cases hp : s.isPlaying
    · have hkeep : TimerInv { s with tempo := t } := hinv
      simpa [tempoCommit, hp] using ⟨hkeep, timerInv_length _ hkeep⟩
    · have hkeep : TimerInv { s with tempo := t } := hinv
      simpa [tempoCommit, hp] using key { s with tempo := t } hkeep
  · cases hp : s.isPlaying
    · have hkeep :
          TimerInv { s with timeSignature := sig, accentBeats := selectAccents sig } :=
        hinv
      simpa [timeSigChange, hp] using ⟨hkeep, timerInv_length _ hkeep⟩
    · refine ⟨Or.inr ⟨s.nextId, ?_, ?_⟩, ?_⟩
      · simp [timeSigChange, hp, setIntervalM, clearCurrentTimer, hcc]
      · simp [timeSigChange, hp, setIntervalM, clearCurrentTimer]
      · simp [timeSigChange, hp, setIntervalM, clearCurrentTimer, hcc]
  · cases hp : s.isPlaying
    · have hkeep :
          TimerInv { s with isPlaying := true, currentBeat := 0, nextBeat := 0 } :=
        hinv
      simpa [startStop, hp] using
        key { s with isPlaying := true, currentBeat := 0, nextBeat := 0 } hkeep
    · refine ⟨Or.inl ?_, ?_⟩
      · simp [startStop, hp, clearCurrentTimer, hcc]
      · simp [startStop, hp, clearCurrentTimer, hcc]
  · exact ⟨hinv, timerInv_length s hinv⟩

/-- Witness for C2 at the sample running state (no timer yet live). -/
theorem c2_single_timer_witness :
    TimerInv sampleState ∧
    ((TimerInv (startMetronome sampleState).2 ∧
        (startMetronome sampleState).2.live.length ≤ 1) ∧
      (TimerInv (tempoCommit sampleState 240).2 ∧
        (tempoCommit sampleState 240).2.live.length ≤ 1) ∧
      (TimerInv (timeSigChange sampleState ⟨3, SigValue.four⟩) ∧
        (timeSigChange sampleState ⟨3, SigValue.four⟩).live.length ≤ 1) ∧
      (TimerInv (tapReschedule sampleState).2 ∧
        (tapReschedule sampleState).2.live.length ≤ 1) ∧
      (TimerInv (startStop sampleState).2 ∧
        (startStop sampleState).2.live.length ≤ 1) ∧
      (TimerInv (tickBody sampleState).2 ∧
        (tickBody sampleState).2.live.length ≤ 1)) :=
  ⟨Or.inl rfl, c2_single_timer sampleState 240 ⟨3, SigValue.four⟩ (Or.inl rfl)⟩

/-! ## C4 and C5: cursor behaviour under reconfiguration -/

/-- The state after one tick, as a record update. -/
theorem tickBody_snd (s : MState) :
    (tickBody s).2 =
      { s with currentBeat := s.nextBeat
               nextBeat := (s.nextBeat + 1) % s.timerModulus } := rfl

/-- The state after `startMetronome`, as a record update. -/
theorem startMetronome_snd (s : MState) :
    (startMetronome s).2 =
      { s with currentBeat := s.nextBeat
               nextBeat := (s.nextBeat + 1) % s.timeSignature.beats
               timer := some s.nextId
               live := s.nextId :: eraseTimer s.timer s.live
               nextId := s.nextId + 1
               timerModulus := s.timeSignature.beats
               timerIntervalMs := max (60 / s.tempo * 1000) 10 } := rfl

/-- After `k` ticks the cursor has advanced `k` steps modulo the armed
modulus. -/
theorem ticksN_nextBeat (n : ℕ) (hn : 0 < n) :
    ∀ (k : ℕ) (s : MState), s.timerModulus = n → s.nextBeat < n →
      (ticksN k s).2.nextBeat = (s.nextBeat + k) % n := by
  intro k
  induction k with
  | zero =>
    intro s hm hb
    simp [ticksN, Nat.mod_eq_of_lt hb]
  | succ m ih =>
    intro s hm hb
    have h2 : (tickBody s).2.nextBeat = (s.nextBeat + 1) % n := by
      simp [tickBody, hm]
    have h3 : (tickBody s).2.nextBeat < n := h2 ▸ Nat.mod_lt _ hn
    have hrec := ih (tickBody s).2 (by simp [tickBody, hm]) h3
    show (ticksN m (tickBody s).2).2.nextBeat = (s.nextBeat + (m + 1)) % n
    rw [hrec, h2, Nat.mod_add_mod]
    congr 1
    omega

/-- Every field a tick does not touch is preserved over `k` ticks. -/
theorem ticksN_preserved (k : ℕ) (s : MState) :
    (ticksN k s).2.isPlaying = s.isPlaying ∧
    (ticksN k s).2.tempo = s.tempo ∧
    (ticksN k s).2.timeSignature = s.timeSignature ∧
    (ticksN k s).2.timerModulus = s.timerModulus := by
  induction k generalizing s with
  | zero => exact ⟨rfl, rfl, rfl, rfl⟩
  | succ m ih =>
    have h := ih (tickBody s).2
    exact h

/-- The visual-callback trace of `k` ticks counts up from the cursor
modulo the armed modulus. -/
theorem ticksN_visual (n : ℕ) (hn : 0 < n) :
    ∀ (k : ℕ) (s : MState), s.timerModulus = n → s.nextBeat < n →
      visualBeats (ticksN k s).1 =
        (List.range k).map (fun j => (s.nextBeat + j) % n) := by
  intro k
  induction k with
  | zero =>
    intro s hm hb
    simp [ticksN, visualBeats]
  | succ m ih =>
    intro s hm hb
    have h2 : (tickBody s).2.nextBeat = (s.nextBeat + 1) % n := by
      simp [tickBody, hm]
    have h3 : (tickBody s).2.nextBeat < n := h2 ▸ Nat.mod_lt _ hn
    have hrec := ih (tickBody s).2 (by simp [tickBody, hm]) h3
    show visualBeats ((tickBody s).1 ++ (ticksN m (tickBody s).2).1) = _
    rw [visualBeats_append, hrec, h2]
    have hfst : visualBeats (tickBody s).1 = [s.nextBeat] := rfl
    rw [hfst, List.range_succ_eq_map, List.map_cons, List.map_map,
      List.singleton_append]
    congr 1
    · rw [Nat.add_zero, Nat.mod_eq_of_lt hb]
    · refine List.map_congr_left fun j _ => ?_
      show ((s.nextBeat + 1) % n + j) % n = (s.nextBeat + Nat.succ j) % n
      rw [Nat.mod_add_mod]
      congr 1
      omega

/-- C4: reconfiguring the tempo while running preserves the beat cursor.
From any running state (armed modulus in sync with the time signature),
after `k` ticks, a tempo commit (which cancels, immediately plays the
beat at the preserved cursor, and reschedules at the new interval), and
`m` further ticks, the visual-callback trace is the uninterrupted
periodic sequence `cursor, cursor+1, …` modulo `beatCount` — no reset to
0, no skipped and no repeated beat — and the new timer runs at
`max(60000/newTempo, 10)` ms. -/
theorem c4_tempo_preserves_cursor (s : MState) (t : ℚ) (k m : ℕ)
    (hp : s.isPlaying = true)
    (hm : s.timerModulus = s.timeSignature.beats)
    (hb : s.nextBeat < s.timeSignature.beats) :
    visualBeats ((ticksN k s).1 ++
        (tempoCommit (ticksN k s).2 t).1 ++
        (ticksN m (tempoCommit (ticksN k s).2 t).2).1) =
      (List.range (k + 1 + m)).map
        (fun j => (s.nextBeat + j) % s.timeSignature.beats) ∧
    (tempoCommit (ticksN k s).2 t).2.nextBeat =
      (s.nextBeat + (k + 1)) % s.timeSignature.beats ∧
    (tempoCommit (ticksN k s).2 t).2.timerIntervalMs = max (60000 / t) 10 := by
  have hn : 0 < s.timeSignature.beats := Nat.pos_of_ne_zero (by omega)
  obtain ⟨hply, -, hsig, hmod⟩ := ticksN_preserved k s
  have hnb1 : (ticksN k s).2.nextBeat = (s.nextBeat + k) % s.timeSignature.beats :=
    ticksN_nextBeat s.timeSignature.beats hn k s hm hb
  have htc : tempoCommit (ticksN k s).2 t =
      startMetronome { (ticksN k s).2 with tempo := t } := by
    simp [tempoCommit, hply, hp]
  have hnb2 : (tempoCommit (ticksN k s).2 t).2.nextBeat =
      (s.nextBeat + (k + 1)) % s.timeSignature.beats := by
    rw [htc, startMetronome_snd]
    show ((ticksN k s).2.nextBeat + 1) % (ticksN k s).2.timeSignature.beats = _
    rw [hsig, hnb1, Nat.mod_add_mod]
    congr 1
  have hmod2 : (tempoCommit (ticksN k s).2 t).2.timerModulus =
      s.timeSignature.beats := by
    rw [htc, startMetronome_snd]
    show (ticksN k s).2.timeSignature.beats = _
    rw [hsig]
  have hb2 : (tempoCommit (ticksN k s).2 t).2.nextBeat < s.timeSignature.beats := by
    rw [hnb2]; exact Nat.mod_lt _ hn
  refine ⟨?_, hnb2, ?_⟩
  · rw [visualBeats_append, visualBeats_append]
    have hv1 := ticksN_visual s.timeSignature.beats hn k s hm hb
    have hv3 := ticksN_visual s.timeSignature.beats hn m
      (tempoCommit (ticksN k s).2 t).2 hmod2 hb2
    have hev : visualBeats (tempoCommit (ticksN k s).2 t).1 =
        [(s.nextBeat + k) % s.timeSignature.beats] := by
      rw [htc]
      show [(ticksN k s).2.nextBeat] = _
      rw [hnb1]
    rw [hv1, hv3, hev, hnb2]
    rw [List.range_add, List.range_succ, List.map_append, List.map_append,
      List.map_map]
    congr 1
    refine List.map_congr_left fun j _ => ?_
    show ((s.nextBeat + (k + 1)) % s.timeSignature.beats + j) %
        s.timeSignature.beats = (s.nextBeat + (k + 1 + j)) % s.timeSignature.beats
    rw [Nat.mod_add_mod]
    congr 1
    omega
  · rw [htc, startMetronome_snd]
    show max (60 / t * 1000) 10 = _
    rw [sixty_div_mul]

/-- Witness for C4: the sample 4/4 state, 2 ticks, tempo commit to 240,
1 further tick. -/
theorem c4_tempo_preserves_cursor_witness :
    (sampleState.isPlaying = true ∧
      sampleState.timerModulus = sampleState.timeSignature.beats ∧
      sampleState.nextBeat < sampleState.timeSignature.beats) ∧
    (visualBeats ((ticksN 2 sampleState).1 ++
        (tempoCommit (ticksN 2 sampleState).2 240).1 ++
        (ticksN 1 (tempoCommit (ticksN 2 sampleState).2 240).2).1) =
      (List.range (2 + 1 + 1)).map
        (fun j => (sampleState.nextBeat + j) % sampleState.timeSignature.beats) ∧
      (tempoCommit (ticksN 2 sampleState).2 240).2.nextBeat =
        (sampleState.nextBeat + (2 + 1)) % sampleState.timeSignature.beats ∧
      (tempoCommit (ticksN 2 sampleState).2 240).2.timerIntervalMs =
        max (60000 / 240) 10) :=
  ⟨⟨rfl, rfl, by decide⟩,
   c4_tempo_preserves_cursor sampleState 240 2 1 rfl rfl (by decide)⟩

/-- C5: reconfiguring the time signature while running resets the cursor
to 0 (both the `nextBeat` cell and the visual `currentBeat`), arms a new
timer (cancelling the old one: exactly the fresh handle remains live),
and makes the new `beatCount` the modulus effective immediately: the
subsequent tick trace is `0, 1, …` modulo the new beat count. -/
theorem c5_timesig_resets_cursor (s : MState) (sig : TimeSignature) (m : ℕ)
    (hp : s.isPlaying = true) (hbeats : 0 < sig.beats) (hinv : TimerInv s) :
    (timeSigChange s sig).nextBeat = 0 ∧
    (timeSigChange s sig).currentBeat = 0 ∧
    (timeSigChange s sig).timerModulus = sig.beats ∧
    (timeSigChange s sig).timer = some s.nextId ∧
    (timeSigChange s sig).live = [s.nextId] ∧
    visualBeats (ticksN m (timeSigChange s sig)).1 =
      (List.range m).map (fun j => j % sig.beats) := by
  have hcc := clearCurrentTimer_live s hinv
  simp only [clearCurrentTimer] at hcc
  have h1 : (timeSigChange s sig).nextBeat = 0 := by
    simp [timeSigChange, hp, setIntervalM, clearCurrentTimer]
  have h2 : (timeSigChange s sig).currentBeat = 0 := by
    simp [timeSigChange, hp, setIntervalM, clearCurrentTimer]
  have h3 : (timeSigChange s sig).timerModulus = sig.beats := by
    simp [timeSigChange, hp, setIntervalM, clearCurrentTimer]
  have h4 : (timeSigChange s sig).timer = some s.nextId := by
    simp [timeSigChange, hp, setIntervalM, clearCurrentTimer]
  have h5 : (timeSigChange s sig).live = [s.nextId] := by
    simp [timeSigChange, hp, setIntervalM, clearCurrentTimer, hcc]
  have hvis := ticksN_visual sig.beats hbeats m (timeSigChange s sig) h3
    (by rw [h1]; exact hbeats)
  refine ⟨h1, h2, h3, h4, h5, ?_⟩
  rw [hvis, h1]
  simp

/-- Witness for C5: the sample 4/4 state switching to 3/4, 5 ticks. -/
theorem c5_timesig_resets_cursor_witness :
    (sampleState.isPlaying = true ∧ 0 < (3 : ℕ) ∧ TimerInv sampleState) ∧
    ((timeSigChange sampleState ⟨3, SigValue.four⟩).nextBeat = 0 ∧
      (timeSigChange sampleState ⟨3, SigValue.four⟩).currentBeat = 0 ∧
      (timeSigChange sampleState ⟨3, SigValue.four⟩).timerModulus = 3 ∧
      (timeSigChange sampleState ⟨3, SigValue.four⟩).timer = some sampleState.nextId ∧
      (timeSigChange sampleState ⟨3, SigValue.four⟩).live = [sampleState.nextId] ∧
      visualBeats (ticksN 5 (timeSigChange sampleState ⟨3, SigValue.four⟩)).1 =
        (List.range 5).map (fun j => j % 3)) :=
  ⟨⟨rfl, by decide, Or.inl rfl⟩,
   c5_timesig_resets_cursor sampleState ⟨3, SigValue.four⟩ 5 rfl (by decide)
     (Or.inl rfl)⟩
